import Mathlib

/-!
Verification of core behaviours of the AdminKlaus remote-administration
client (`src/ssh-manager.js`, `src/context-manager.js`, and the main
orchestrator module).  The JavaScript source is shallowly embedded:

* pure string manipulation (the sudo credential escaping, log rendering,
  token estimation) becomes Lean functions on `String` / `List Char`;
* the asynchronous ssh2 stream protocol becomes an explicit list of
  events (`data` / stderr-`data` / `close`, plus the `abort` call for
  streaming executions) folded into the result the promise resolves with;
* the orchestrator's interactive session (operator confirmations,
  transport invocations) is modelled by explicit oracles threaded through
  a state record, with a trace of every transport dispatch recorded so
  that "never touches the transport" is a statement about the trace;
* JavaScript numbers used as exit codes become `Int`; token counts become
  `Nat`, with the fractional token targets (`cmdLogTokens / 2`,
  `maxContextTokens * 0.33`) represented exactly in `ℚ`.
-/

namespace AdminKlaus

/-- ExecutionResult as produced by `SSHManager.execute` /
`executeStreaming` (ssh-manager.js): `{stdout, stderr, exitCode, aborted}`.
`execute` resolves without an `aborted` field; reading that absent field
in the orchestrator yields the JS falsy `undefined`, modelled as
`aborted = false`. -/
structure ExecResult where
  stdout : String
  stderr : String
  exitCode : Int
  aborted : Bool
deriving DecidableEq, Repr

/-! ## Sudo wrapping and its escape (ssh-manager.js lines 75-79, 135-139)

`fullCommand = `echo '${sudoPassword.replace(/'/g, "'\\''")}' | sudo -S -p '' ${command}``

The replacement string `"'\\''"` is the four characters `'`, `\`, `'`, `'`. -/

/-- The escape applied to the sudo credential before it is embedded in
single quotes: every `'` becomes the four-character sequence `'\''`
(close quote, backslash-escaped quote, reopen quote).  This is
`sudoPassword.replace(/'/g, "'\\''")` at the level of characters. -/
def sudoEscape : List Char → List Char
  | [] => []
  | c :: rest =>
    if c = '\'' then '\'' :: '\\' :: '\'' :: '\'' :: sudoEscape rest
    else c :: sudoEscape rest

/-- String-level form of `sudoEscape`. -/
def sudoEscapeStr (s : String) : String :=
  String.mk (sudoEscape s.data)

/-- The sudo wrapping of a command (ssh-manager.js line 78 / 138):
the escaped credential is piped on stdin to `sudo -S` so it never
appears as a process argument. -/
def wrapSudo (sudoPassword command : String) : String :=
  "echo '" ++ sudoEscapeStr sudoPassword ++ "' | sudo -S -p '' " ++ command

/-- Lexer state for the POSIX shell single-quote syntax: inside single
quotes (`inQ`), outside quotes (`outQ`), or just after an unquoted
backslash (`esc`). -/
inductive QuoteState where
  | inQ
  | outQ
  | esc
deriving DecidableEq, Repr

/-- Interpreter for the POSIX shell single-quote syntax the wrapping
relies on, reading a word and returning the literal bytes it denotes.
Inside single quotes every character is literal until the closing `'`;
outside quotes `\c` denotes the literal character `c`, `'` opens a
quoted section, and any other character denotes itself.  `none` marks an
unterminated quote or a trailing backslash. -/
def singleQuoteRead : QuoteState → List Char → Option (List Char)
  | .inQ, [] => none
  | .inQ, c :: rest =>
    if c = '\'' then singleQuoteRead .outQ rest
    else (singleQuoteRead .inQ rest).map (c :: ·)
  | .outQ, [] => some []
  | .outQ, c :: rest =>
    if c = '\'' then singleQuoteRead .inQ rest
    else if c = '\\' then singleQuoteRead .esc rest
    else (singleQuoteRead .outQ rest).map (c :: ·)
  | .esc, [] => none
  | .esc, c :: rest => (singleQuoteRead .outQ rest).map (c :: ·)

theorem singleQuoteRead_sudoEscape (s : List Char) :
    singleQuoteRead .inQ (sudoEscape s ++ ['\'']) = some s := by
  induction s with
  | nil => simp [sudoEscape, singleQuoteRead]
  | cons c rest ih =>
    by_cases hc : c = '\''
    · subst hc
      simp [sudoEscape, singleQuoteRead, ih]
    · simp [sudoEscape, singleQuoteRead, hc, ih]

/-- C2: the elevation-wrapping escape is invertible.  Reading the
single-quoted word `'`…escaped credential…`'` under the shell's
single-quote syntax recovers exactly the original credential bytes, for
every credential, including credentials containing single quotes (so an
embedded quote can never break out of the wrapping). -/
theorem sudoEscape_invertible (s : List Char) :
    singleQuoteRead .outQ ('\'' :: (sudoEscape s ++ ['\''])) = some s := by
  have h : singleQuoteRead .outQ ('\'' :: (sudoEscape s ++ ['\''])) =
      singleQuoteRead .inQ (sudoEscape s ++ ['\'']) := by
    simp [singleQuoteRead]
  rw [h]
  exact singleQuoteRead_sudoEscape s

/-! ## Event-level model of `execute` (ssh-manager.js lines 81-115)

The ssh2 stream delivers `data` chunks, stderr `data` chunks, and one
`close` event carrying the exit code.  `execute` accumulates the chunks
into `stdout` / `stderr` and resolves on `close` with both accumulators
trimmed.  A list of events stands for one run of the remote command;
`none` means the stream never closed (the promise stays pending). -/

inductive ExecEvent where
  | out (text : String)
  | errOut (text : String)
  | closed (code : Int)
deriving DecidableEq, Repr

/-- Whether an event list contains a `close` event. -/
def hasClosed : List ExecEvent → Bool
  | [] => false
  | ExecEvent.closed _ :: _ => true
  | _ :: rest => hasClosed rest

/-- The resolution of `execute`'s promise given the accumulated
`stdout` / `stderr` so far and the remaining stream events.  On `close`
it resolves `{stdout: stdout.trim(), stderr: stderr.trim(), exitCode:
code}` (no `aborted` field, modelled as `false`). -/
def sshExecute : String → String → List ExecEvent → Option ExecResult
  | _, _, [] => none
  | so, se, ExecEvent.out t :: rest => sshExecute (so ++ t) se rest
  | so, se, ExecEvent.errOut t :: rest => sshExecute so (se ++ t) rest
  | so, se, ExecEvent.closed code :: _ => some ⟨so.trim, se.trim, code, false⟩

/-- Concatenation of all stdout chunks of an event list. -/
def outConcat : List ExecEvent → String
  | [] => ""
  | ExecEvent.out t :: rest => t ++ outConcat rest
  | _ :: rest => outConcat rest

/-- Concatenation of all stderr chunks of an event list. -/
def errConcat : List ExecEvent → String
  | [] => ""
  | ExecEvent.errOut t :: rest => t ++ errConcat rest
  | _ :: rest => errConcat rest

/-! ## Event-level model of `executeStreaming` (ssh-manager.js lines 128-197)

Streaming execution additionally exposes an `abort()` handle: calling it
sets the closure variable `aborted := true` (and signals the remote
process).  When the stream eventually closes, the promise resolves with
`exitCode: aborted ? 130 : code` and the `aborted` flag. -/

inductive StreamEvent where
  | out (text : String)
  | errOut (text : String)
  | abortCall
  | closed (code : Int)
deriving DecidableEq, Repr

/-- Whether a streaming event list contains a `close` event. -/
def hasClosedS : List StreamEvent → Bool
  | [] => false
  | StreamEvent.closed _ :: _ => true
  | _ :: rest => hasClosedS rest

/-- Whether a streaming event list contains an `abort()` call. -/
def hasAbortS : List StreamEvent → Bool
  | [] => false
  | StreamEvent.abortCall :: _ => true
  | _ :: rest => hasAbortS rest

/-- Concatenation of all stdout chunks of a streaming event list. -/
def outConcatS : List StreamEvent → String
  | [] => ""
  | StreamEvent.out t :: rest => t ++ outConcatS rest
  | _ :: rest => outConcatS rest

/-- Concatenation of all stderr chunks of a streaming event list. -/
def errConcatS : List StreamEvent → String
  | [] => ""
  | StreamEvent.errOut t :: rest => t ++ errConcatS rest
  | _ :: rest => errConcatS rest

/-- The resolution of `executeStreaming`'s completion promise: the first
argument is the current value of the `aborted` closure variable, then the
accumulated `stdout` / `stderr`, then the remaining stream events. -/
def sshExecuteStreaming : Bool → String → String → List StreamEvent → Option ExecResult
  | _, _, _, [] => none
  | ab, so, se, StreamEvent.out t :: rest => sshExecuteStreaming ab (so ++ t) se rest
  | ab, so, se, StreamEvent.errOut t :: rest => sshExecuteStreaming ab so (se ++ t) rest
  | _, so, se, StreamEvent.abortCall :: rest => sshExecuteStreaming true so se rest
  | ab, so, se, StreamEvent.closed code :: _ =>
    some ⟨so.trim, se.trim, if ab then 130 else code, ab⟩

theorem sshExecuteStreaming_aborted (evts : List StreamEvent) :
    ∀ so se r, sshExecuteStreaming true so se evts = some r →
      r.aborted = true ∧ r.exitCode = 130 := by
  induction evts with
  | nil => intro so se r h; simp [sshExecuteStreaming] at h
  | cons e rest ih =>
    intro so se r h
    cases e with
    | out t => exact ih _ _ _ h
    | errOut t => exact ih _ _ _ h
    | abortCall => exact ih _ _ _ h
    | closed code =>
      simp [sshExecuteStreaming] at h
      subst h
      exact ⟨rfl, rfl⟩

/-- C7: cancelling a streaming execution — `abort()` is called at any
point before the stream closes — makes the completion resolve with
`aborted = true` and `exitCode = 130`, no matter how many chunks were
delivered before the cancel (`pre`), what happens afterwards (`post`),
and what exit code the remote process reported at close. -/
theorem executeStreaming_cancel (pre post : List StreamEvent) (so se : String)
    (r : ExecResult) (hpre : hasClosedS pre = false)
    (h : sshExecuteStreaming false so se (pre ++ StreamEvent.abortCall :: post) = some r) :
    r.aborted = true ∧ r.exitCode = 130 := by
  induction pre generalizing so se with
  | nil =>
    simp only [List.nil_append, sshExecuteStreaming] at h
    exact sshExecuteStreaming_aborted post so se r h
  | cons e rest ih =>
    cases e with
    | out t => exact ih _ _ (by simpa [hasClosedS] using hpre) h
    | errOut t => exact ih _ _ (by simpa [hasClosedS] using hpre) h
    | abortCall =>
      simp only [List.cons_append, sshExecuteStreaming] at h
      exact sshExecuteStreaming_aborted _ _ _ _ h
    | closed code => simp [hasClosedS] at hpre

/-- Witness for C7: one delivered chunk, then the operator cancels, then
the channel closes with the remote reporting exit code 0; the completion
still carries `aborted = true` and `exitCode = 130`. -/
theorem executeStreaming_cancel_witness :
    hasClosedS [StreamEvent.out "chunk1\n"] = false ∧
    ((⟨("" ++ "chunk1\n").trim, "".trim, 130, true⟩ : ExecResult).aborted = true ∧
     (⟨("" ++ "chunk1\n").trim, "".trim, 130, true⟩ : ExecResult).exitCode = 130) :=
  ⟨by decide,
   executeStreaming_cancel [StreamEvent.out "chunk1\n"] [StreamEvent.closed 0] "" ""
     ⟨("" ++ "chunk1\n").trim, "".trim, 130, true⟩ (by decide) rfl⟩

theorem sshExecute_closes (evts : List ExecEvent) :
    ∀ so se code, hasClosed evts = false →
      sshExecute so se (evts ++ [ExecEvent.closed code]) =
        some ⟨(so ++ outConcat evts).trim, (se ++ errConcat evts).trim, code, false⟩ := by
  induction evts with
  | nil => intro so se code _; simp [sshExecute, outConcat, errConcat]
  | cons e rest ih =>
    intro so se code h
    cases e with
    | out t =>
      show sshExecute (so ++ t) se (rest ++ [ExecEvent.closed code]) = _
      rw [ih _ _ _ (by simpa [hasClosed] using h)]
      simp [outConcat, errConcat, String.append_assoc]
    | errOut t =>
      show sshExecute so (se ++ t) (rest ++ [ExecEvent.closed code]) = _
      rw [ih _ _ _ (by simpa [hasClosed] using h)]
      simp [outConcat, errConcat, String.append_assoc]
    | closed code2 => simp [hasClosed] at h

theorem sshExecuteStreaming_closes (evts : List StreamEvent) :
    ∀ (ab : Bool) (so se : String) (code : Int), hasClosedS evts = false →
      sshExecuteStreaming ab so se (evts ++ [StreamEvent.closed code]) =
        some ⟨(so ++ outConcatS evts).trim, (se ++ errConcatS evts).trim,
          if (ab || hasAbortS evts) then 130 else code, ab || hasAbortS evts⟩ := by
  induction evts with
  | nil =>
    intro ab so se code _
    simp [sshExecuteStreaming, outConcatS, errConcatS, hasAbortS]
  | cons e rest ih =>
    intro ab so se code hc
    cases e with
    | out t =>
      show sshExecuteStreaming ab (so ++ t) se (rest ++ [StreamEvent.closed code]) = _
      rw [ih ab _ _ _ (by simpa [hasClosedS] using hc)]
      simp [outConcatS, errConcatS, hasAbortS, String.append_assoc]
    | errOut t =>
      show sshExecuteStreaming ab so (se ++ t) (rest ++ [StreamEvent.closed code]) = _
      rw [ih ab _ _ _ (by simpa [hasClosedS] using hc)]
      simp [outConcatS, errConcatS, hasAbortS, String.append_assoc]
    | abortCall =>
      show sshExecuteStreaming true so se (rest ++ [StreamEvent.closed code]) = _
      rw [ih true _ _ _ (by simpa [hasClosedS] using hc)]
      simp [outConcatS, errConcatS, hasAbortS]
    | closed code2 => simp [hasClosedS] at hc

/-- C10: for both blocking and streaming execution, whenever a result is
produced — on streaming runs with or without an operator cancel — its
`stdout` and `stderr` are exactly the accumulated transport chunks with
leading and trailing whitespace removed (`.trim()`), and the exit code is
the one reported at close, except that a cancelled streaming run reports
130. -/
theorem execute_output_trimmed :
    (∀ (evts : List ExecEvent) (code : Int) (r : ExecResult),
      hasClosed evts = false →
      sshExecute "" "" (evts ++ [ExecEvent.closed code]) = some r →
      r.stdout = (outConcat evts).trim ∧ r.stderr = (errConcat evts).trim ∧
        r.exitCode = code) ∧
    (∀ (evts : List StreamEvent) (code : Int) (r : ExecResult),
      hasClosedS evts = false →
      sshExecuteStreaming false "" "" (evts ++ [StreamEvent.closed code]) = some r →
      r.stdout = (outConcatS evts).trim ∧ r.stderr = (errConcatS evts).trim ∧
        r.exitCode = (if hasAbortS evts then 130 else code)) := by
  constructor
  · intro evts code r h hr
    rw [sshExecute_closes evts "" "" code h] at hr
    obtain rfl : r = ⟨("" ++ outConcat evts).trim, ("" ++ errConcat evts).trim, code, false⟩ :=
      (Option.some_injective _ hr).symm
    simp [String.empty_append]
  · intro evts code r h hr
    rw [sshExecuteStreaming_closes evts false "" "" code h] at hr
    obtain rfl : r = ⟨("" ++ outConcatS evts).trim, ("" ++ errConcatS evts).trim,
        if (false || hasAbortS evts) then 130 else code, false || hasAbortS evts⟩ :=
      (Option.some_injective _ hr).symm
    simp [String.empty_append]

/-- Witness for C10, covering both halves: executing `echo ok` delivers
the single chunk `"ok\n"` and exit code 0, and the result's stdout is its
trim; a streaming run that delivers one chunk and is then cancelled
before the close still carries the trimmed chunk as stdout, with exit
code 130. -/
theorem execute_output_trimmed_witness :
    (hasClosed [ExecEvent.out "ok\n"] = false ∧
     ((⟨("" ++ "ok\n").trim, "".trim, 0, false⟩ : ExecResult).stdout =
        (outConcat [ExecEvent.out "ok\n"]).trim ∧
      (⟨("" ++ "ok\n").trim, "".trim, 0, false⟩ : ExecResult).stderr =
        (errConcat [ExecEvent.out "ok\n"]).trim ∧
      (⟨("" ++ "ok\n").trim, "".trim, 0, false⟩ : ExecResult).exitCode = 0)) ∧
    (hasClosedS [StreamEvent.out "line1\n", StreamEvent.abortCall] = false ∧
     ((⟨("" ++ "line1\n").trim, "".trim, 130, true⟩ : ExecResult).stdout =
        (outConcatS [StreamEvent.out "line1\n", StreamEvent.abortCall]).trim ∧
      (⟨("" ++ "line1\n").trim, "".trim, 130, true⟩ : ExecResult).stderr =
        (errConcatS [StreamEvent.out "line1\n", StreamEvent.abortCall]).trim ∧
      (⟨("" ++ "line1\n").trim, "".trim, 130, true⟩ : ExecResult).exitCode =
        (if hasAbortS [StreamEvent.out "line1\n", StreamEvent.abortCall] then 130 else 0))) :=
  ⟨⟨by decide,
    execute_output_trimmed.1 [ExecEvent.out "ok\n"] 0
      ⟨("" ++ "ok\n").trim, "".trim, 0, false⟩ (by decide) rfl⟩,
   ⟨by decide,
    execute_output_trimmed.2 [StreamEvent.out "line1\n", StreamEvent.abortCall] 0
      ⟨("" ++ "line1\n").trim, "".trim, 130, true⟩ (by decide) rfl⟩⟩

/-! ## executeMany (ssh-manager.js lines 205-222)

`executeMany` awaits `this.execute(command, options)` for each command in
order, pushes `{command, ...result}`, and breaks after the first result
with a non-zero exit code.  The session's behaviour is an oracle mapping
the index of the dispatch and the command text to either a resolved
result or a rejection message (a rejection propagates out of
`executeMany`, rejecting the whole call). -/

def executeMany (exec : Nat → String → Except String ExecResult) :
    Nat → List String → Except String (List (String × ExecResult))
  | _, [] => Except.ok []
  | i, c :: cs =>
    match exec i c with
    | Except.error e => Except.error e
    | Except.ok r =>
      if r.exitCode ≠ 0 then Except.ok [(c, r)]
      else
        match executeMany exec (i + 1) cs with
        | Except.error e => Except.error e
        | Except.ok rs => Except.ok ((c, r) :: rs)

/-- The per-command results of every command in the list, had all of them
run (the reference list the returned prefix is compared against). -/
def fullResults (exec : Nat → String → ExecResult) :
    Nat → List String → List (String × ExecResult)
  | _, [] => []
  | i, c :: cs => (c, exec i c) :: fullResults exec (i + 1) cs

/-- Index of the first command whose result has a non-zero exit code. -/
def firstFailIdx (exec : Nat → String → ExecResult) :
    Nat → List String → Option Nat
  | _, [] => none
  | i, c :: cs =>
    if (exec i c).exitCode ≠ 0 then some 0
    else (firstFailIdx exec (i + 1) cs).map (· + 1)

theorem executeMany_ok (exec : Nat → String → ExecResult) (n : Nat)
    (cmds : List String) :
    ∃ rs, executeMany (fun i c => Except.ok (exec i c)) n cmds = Except.ok rs ∧
      rs <+: fullResults exec n cmds ∧
      rs.length = (match firstFailIdx exec n cmds with
        | some i => i + 1
        | none => cmds.length) := by
  induction cmds generalizing n with
  | nil => exact ⟨[], rfl, List.nil_prefix, by simp [firstFailIdx]⟩
  | cons c cs ih =>
    by_cases hfail : (exec n c).exitCode ≠ 0
    · refine ⟨[(c, exec n c)], ?_, ?_, ?_⟩
      · simp [executeMany, hfail]
      · exact ⟨fullResults exec (n + 1) cs, by simp [fullResults]⟩
      · simp [firstFailIdx, hfail]
    · obtain ⟨rs, hok, hpre, hlen⟩ := ih (n + 1)
      refine ⟨(c, exec n c) :: rs, ?_, ?_, ?_⟩
      · simp [executeMany, hfail, hok]
      · simpa [fullResults] using hpre
      · simp only [firstFailIdx, hfail, if_false, List.length_cons]
        cases hidx : firstFailIdx exec (n + 1) cs with
        | none => simp [hidx] at hlen; simp [hlen]
        | some i => simp [hidx] at hlen; simp [hlen]

/-- C6: `executeMany` executes the commands strictly in order and stops
at the first non-zero exit code: when every dispatch resolves, the
returned list is a prefix of the per-command results whose length is the
index of the first failing command plus one, or the whole list when every
command exits zero. -/
theorem executeMany_stops_at_first_failure (exec : Nat → String → ExecResult)
    (cmds : List String) :
    ∃ rs, executeMany (fun i c => Except.ok (exec i c)) 0 cmds = Except.ok rs ∧
      rs <+: fullResults exec 0 cmds ∧
      rs.length = (match firstFailIdx exec 0 cmds with
        | some i => i + 1
        | none => cmds.length) :=
  executeMany_ok exec 0 cmds

/-! ## ContextManager (context-manager.js)

The store keeps three lists: the machine-readable `messages` for the
model API, the human-readable `communicationLog`, and the `commandLog`.
`tokensPerChar = 0.25`, so `estimateTokens(text) = Math.ceil(text.length
* 0.25) = ⌈length / 4⌉`.  The fractional compaction targets
(`cmdLogTokens / 2`, `maxContextTokens * 0.33`) are carried in `ℚ`. -/

/-- One entry of the human-readable communication log:
`{timestamp, role, content}`. -/
structure DialogueEntry where
  timestamp : String
  role : String
  content : String
deriving DecidableEq, Repr

/-- One content block of an API message (`{type, text}`); only blocks
with `type = "text"` contribute to the dialogue log. -/
structure Block where
  type : String
  text : String
deriving DecidableEq, Repr

/-- An API message content: either a plain string or an array of blocks
(tool results, tool uses, text blocks). -/
inductive MsgContent where
  | str (s : String)
  | blocks (bs : List Block)
deriving DecidableEq, Repr

/-- One entry of the machine-readable `messages` list: `{role, content}`. -/
structure Message where
  role : String
  content : MsgContent
deriving DecidableEq, Repr

/-- One entry of the command log:
`{timestamp, command, output, exitCode, success}`. -/
structure CommandLogEntry where
  timestamp : String
  command : String
  output : String
  exitCode : Int
  success : Bool
deriving DecidableEq, Repr

/-- The mutable state of a `ContextManager`. -/
structure CtxState where
  messages : List Message
  communicationLog : List DialogueEntry
  commandLog : List CommandLogEntry
deriving DecidableEq, Repr

/-- `estimateTokens(text) = Math.ceil(text.length * 0.25)`, i.e.
`⌈length / 4⌉ = (length + 3) / 4` in natural division. -/
def estimateTokens (text : String) : Nat :=
  (text.length + 3) / 4

/-- `Array.prototype.join(sep)`. -/
def joinSep (sep : String) : List String → String
  | [] => ""
  | [s] => s
  | s :: rest => s ++ sep ++ joinSep sep rest

/-- Rendering of one dialogue entry:
`[<timestamp>] <Role>:\n<content>`. -/
def dialogueEntryString (e : DialogueEntry) : String :=
  "[" ++ e.timestamp ++ "] " ++ e.role ++ ":\n" ++ e.content

/-- `getCommunicationLogString()`: entries joined by the fixed
delimiter. -/
def getCommunicationLogString (l : List DialogueEntry) : String :=
  joinSep "\n\n---\n\n" (l.map dialogueEntryString)

/-- Rendering of one command log entry:
`[<timestamp>] <✓|✗> $ <command>\nExit: <code>\n<output>`. -/
def commandEntryString (e : CommandLogEntry) : String :=
  "[" ++ e.timestamp ++ "] " ++ (if e.success then "✓" else "✗") ++ " $ "
    ++ e.command ++ "\nExit: " ++ toString e.exitCode ++ "\n" ++ e.output

/-- `getCommandLogString()`: entries joined by the fixed delimiter. -/
def getCommandLogString (l : List CommandLogEntry) : String :=
  joinSep "\n\n---\n\n" (l.map commandEntryString)

/-- `compactCommandLog(targetTokens)`: while more than one entry remains
and the rendered log still estimates above the target, drop the oldest
entry (`this.commandLog.shift()`). -/
def compactCommandLog (targetTokens : ℚ) : List CommandLogEntry → List CommandLogEntry
  | [] => []
  | [e] => [e]
  | e :: f :: rest =>
    if (estimateTokens (getCommandLogString (e :: f :: rest)) : ℚ) > targetTokens then
      compactCommandLog targetTokens (f :: rest)
    else e :: f :: rest

/-- The `while (list.length > minKeep) list.shift()` loop used twice in
`compactCommunicationLog`. -/
def shiftWhileOver {α : Type} (minKeep : Nat) : List α → List α
  | [] => []
  | x :: xs => if (x :: xs).length > minKeep then shiftWhileOver minKeep xs else x :: xs

/-- `compactCommunicationLog()`: trim the communication log, and
separately the API messages list, down to at most `minKeep = 20` entries
each, always removing from the oldest end. -/
def compactCommunicationLog (st : CtxState) : CtxState :=
  { st with
    communicationLog := shiftWhileOver 20 st.communicationLog
    messages := shiftWhileOver 20 st.messages }

/-- `checkAndCompact()`: if the two rendered logs together estimate above
`halfContext = maxContextTokens / 2`, first shrink the command log to half
its own current token estimate, then, if the communication log alone still
exceeds `maxContextTokens * 0.33`, trim it (and the messages list) via
`compactCommunicationLog`. -/
def checkAndCompact (maxContextTokens : Nat) (st : CtxState) : CtxState :=
  let commLogTokens := estimateTokens (getCommunicationLogString st.communicationLog)
  let cmdLogTokens := estimateTokens (getCommandLogString st.commandLog)
  let totalTokens := commLogTokens + cmdLogTokens
  if (totalTokens : ℚ) > (maxContextTokens : ℚ) / 2 then
    let st1 :=
      if cmdLogTokens > 0 then
        { st with commandLog := compactCommandLog ((cmdLogTokens : ℚ) / 2) st.commandLog }
      else st
    let newCommTokens := estimateTokens (getCommunicationLogString st1.communicationLog)
    if (newCommTokens : ℚ) > (maxContextTokens : ℚ) * (33 / 100) then
      compactCommunicationLog st1
    else st1
  else st

/-- `addMessage(role, content)`: always push to `messages`; push a
human-readable entry to `communicationLog` only for a user message with
string content, or an assistant message with non-empty extracted text;
then run the compaction check. -/
def addMessage (maxContextTokens : Nat) (role : String) (content : MsgContent)
    (timestamp : String) (st : CtxState) : CtxState :=
  let st1 := { st with messages := st.messages ++ [⟨role, content⟩] }
  let st2 :=
    if role = "user" then
      match content with
      | MsgContent.str s =>
        { st1 with communicationLog := st1.communicationLog ++ [⟨timestamp, "User", s⟩] }
      | MsgContent.blocks _ => st1
    else if role = "assistant" then
      let textContent :=
        match content with
        | MsgContent.str s => s
        | MsgContent.blocks bs =>
          joinSep "\n" ((bs.filter (fun b => b.type = "text")).map (fun b => b.text))
      if textContent ≠ "" then
        { st1 with communicationLog := st1.communicationLog ++ [⟨timestamp, "Klaus", textContent⟩] }
      else st1
    else st1
  checkAndCompact maxContextTokens st2

/-- `addCommandOutput(command, output, exitCode)`: append a command log
entry (with the derived `success` flag) and run the compaction check. -/
def addCommandOutput (maxContextTokens : Nat) (command output : String)
    (exitCode : Int) (timestamp : String) (st : CtxState) : CtxState :=
  checkAndCompact maxContextTokens
    { st with commandLog :=
        st.commandLog ++ [⟨timestamp, command, output, exitCode, decide (exitCode = 0)⟩] }

theorem joinSep_length_le (sep a : String) (l : List String) :
    (joinSep sep l).length ≤ (joinSep sep (a :: l)).length := by
  cases l with
  | nil => simp [joinSep]
  | cons b m => simp [joinSep, String.length_append]

theorem estimateTokens_mono {a b : String} (h : a.length ≤ b.length) :
    estimateTokens a ≤ estimateTokens b :=
  Nat.div_le_div_right (Nat.add_le_add_right h 3)

theorem cmdTokens_shift_le (e : CommandLogEntry) (rest : List CommandLogEntry) :
    estimateTokens (getCommandLogString rest) ≤
      estimateTokens (getCommandLogString (e :: rest)) := by
  apply estimateTokens_mono
  simpa [getCommandLogString] using
    joinSep_length_le "\n\n---\n\n" (commandEntryString e) (rest.map commandEntryString)

theorem compactCommandLog_cons2 (targetTokens : ℚ) (e f : CommandLogEntry)
    (rest : List CommandLogEntry) :
    compactCommandLog targetTokens (e :: f :: rest) =
      if (estimateTokens (getCommandLogString (e :: f :: rest)) : ℚ) > targetTokens then
        compactCommandLog targetTokens (f :: rest)
      else e :: f :: rest := rfl

/-- C8: compacting the command log only discards entries from the oldest
end (the result is a suffix), never empties a non-empty log, never
increases the token estimate, and stops once the target is reached or a
single entry remains. -/
theorem compactCommandLog_bounded (targetTokens : ℚ) (log : List CommandLogEntry) :
    compactCommandLog targetTokens log <:+ log ∧
    (log ≠ [] → compactCommandLog targetTokens log ≠ []) ∧
    estimateTokens (getCommandLogString (compactCommandLog targetTokens log)) ≤
      estimateTokens (getCommandLogString log) ∧
    ((compactCommandLog targetTokens log).length ≤ 1 ∨
      (estimateTokens (getCommandLogString (compactCommandLog targetTokens log)) : ℚ) ≤
        targetTokens) := by
  induction log with
  | nil =>
    exact ⟨List.suffix_refl _, fun h => absurd rfl h, le_refl _,
      Or.inl (by simp [compactCommandLog])⟩
  | cons e rest ih =>
    cases rest with
    | nil =>
      exact ⟨List.suffix_refl _, fun _ h => by simp [compactCommandLog] at h,
        le_refl _, Or.inl (by simp [compactCommandLog])⟩
    | cons f rest2 =>
      by_cases hgt :
          (estimateTokens (getCommandLogString (e :: f :: rest2)) : ℚ) > targetTokens
      · have hred : compactCommandLog targetTokens (e :: f :: rest2) =
            compactCommandLog targetTokens (f :: rest2) := by
          rw [compactCommandLog_cons2, if_pos hgt]
        rw [hred]
        obtain ⟨hsuf, hne, htok, hstop⟩ := ih
        exact ⟨hsuf.trans (List.suffix_cons e _),
          fun _ => hne (by simp),
          le_trans htok (cmdTokens_shift_le e (f :: rest2)),
          hstop⟩
      · have hred : compactCommandLog targetTokens (e :: f :: rest2) =
            e :: f :: rest2 := by
          rw [compactCommandLog_cons2, if_neg hgt]
        rw [hred]
        exact ⟨List.suffix_refl _, fun _ h => by simp at h, le_refl _,
          Or.inr (not_lt.mp hgt)⟩

/-- A command log entry used to instantiate the C8 witness. -/
def sampleCmdEntry : CommandLogEntry :=
  ⟨"2024-01-01T00:00:00Z", "false", "", 1, false⟩

/-- Witness for C8: compacting a one-entry log, even with target 0, keeps
the entry. -/
theorem compactCommandLog_bounded_witness :
    compactCommandLog 0 [sampleCmdEntry] ≠ [] :=
  (compactCommandLog_bounded 0 [sampleCmdEntry]).2.1 (by simp)

theorem shiftWhileOver_cons {α : Type} (minKeep : Nat) (x : α) (xs : List α) :
    shiftWhileOver minKeep (x :: xs) =
      if (x :: xs).length > minKeep then shiftWhileOver minKeep xs
      else x :: xs := rfl

theorem shiftWhileOver_length {α : Type} (minKeep : Nat) (l : List α) :
    (shiftWhileOver minKeep l).length = min l.length minKeep := by
  induction l with
  | nil => simp [shiftWhileOver]
  | cons x xs ih =>
    by_cases h : (x :: xs).length > minKeep
    · rw [shiftWhileOver_cons, if_pos h, ih]
      simp only [List.length_cons] at h ⊢
      omega
    · rw [shiftWhileOver_cons, if_neg h]
      simp only [List.length_cons] at h ⊢
      omega

/-- Amended C5: compaction trims the dialogue log to
`min (previous length) 20` — never below the floor of 20 available
entries — and trims the messages list independently to the same floor;
the two lengths agree after compaction whenever both lists held at least
20 entries, but the lists are not coupled below the floor. -/
theorem compactCommunicationLog_floor (st : CtxState) :
    (compactCommunicationLog st).communicationLog.length =
      min st.communicationLog.length 20 ∧
    (compactCommunicationLog st).messages.length = min st.messages.length 20 ∧
    (20 ≤ st.communicationLog.length → 20 ≤ st.messages.length →
      (compactCommunicationLog st).communicationLog.length =
        (compactCommunicationLog st).messages.length) := by
  refine ⟨?_, ?_, ?_⟩
  · simpa [compactCommunicationLog] using
      shiftWhileOver_length 20 st.communicationLog
  · simpa [compactCommunicationLog] using shiftWhileOver_length 20 st.messages
  · intro h1 h2
    simp [compactCommunicationLog, shiftWhileOver_length, Nat.min_eq_right h1,
      Nat.min_eq_right h2]

/-- A dialogue entry used to instantiate the C5 witness. -/
def sampleDialogueEntry : DialogueEntry :=
  ⟨"2024-01-01T00:00:00Z", "User", "hello"⟩

/-- An API message used to instantiate the C5 witness. -/
def sampleMessage : Message :=
  ⟨"user", MsgContent.str "hello"⟩

/-- Witness for the amended C5: with 20 entries in each list, compaction
leaves the two lengths equal. -/
theorem compactCommunicationLog_floor_witness :
    (compactCommunicationLog
        ⟨List.replicate 20 sampleMessage, List.replicate 20 sampleDialogueEntry, []⟩).communicationLog.length =
      (compactCommunicationLog
        ⟨List.replicate 20 sampleMessage, List.replicate 20 sampleDialogueEntry, []⟩).messages.length :=
  (compactCommunicationLog_floor
      ⟨List.replicate 20 sampleMessage, List.replicate 20 sampleDialogueEntry, []⟩).2.2
    (by simp) (by simp)

/-- Counterexample to C5 as stated: a tool-result turn
(`addMessage('user', toolResults)` with array content) enters `messages`
but not `communicationLog`, so after compacting, the messages list has
one entry while the dialogue log has none — the two lengths diverge. -/
theorem compactCommunicationLog_lockstep_cex :
    (compactCommunicationLog (addMessage 100000 "user"
        (MsgContent.blocks [⟨"tool_result", "ok"⟩]) "2024-01-01T00:00:00Z"
        ⟨[], [], []⟩)).messages.length ≠
      (compactCommunicationLog (addMessage 100000 "user"
        (MsgContent.blocks [⟨"tool_result", "ok"⟩]) "2024-01-01T00:00:00Z"
        ⟨[], [], []⟩)).communicationLog.length := by
  norm_num [addMessage, checkAndCompact, compactCommunicationLog, shiftWhileOver,
    estimateTokens, getCommunicationLogString, getCommandLogString, joinSep]

/-! ## ExecutionOrchestrator (main module: `executeCommand`,
`executeStreamingCommand`, `handleToolCalls`)

The orchestrator's interaction with the outside world is modelled by
oracles carried in `OrchCtx`: `sess n` is the outcome of the `n`-th
invocation of the session's `execute`/`executeStreaming` (either a
resolved `ExecResult` or a rejection message, covering `NotConnected`,
exec errors and timeouts); `answer n` is the operator's reply to the
`n`-th `cli.confirm` prompt; `isStreamingCommand` is the regex heuristic
of the main module (its 24 patterns are orthogonal to the claims and kept
abstract).  `OrchState` records the prompt and dispatch counters, the
trace of every transport dispatch (verification instrumentation: each
dispatch also records the index of the confirm prompt that authorized
it), the `addCommandOutput` calls, and the operator-visible UI events. -/

/-- A planner command request:
`{command, explanation, requires_sudo, is_streaming}`. -/
structure CommandRequest where
  command : String
  explanation : String
  requires_sudo : Bool
  is_streaming : Bool
deriving DecidableEq, Repr

/-- The payload of a tool call.  The planner's schema guarantees the
single shape for `execute_command` and the commands-array shape for
`execute_command_sequence`; `other` stands for any unrecognized payload
(the dispatch never looks inside it). -/
inductive ToolInput where
  | single (req : CommandRequest)
  | sequence (commands : List CommandRequest)
  | other
deriving DecidableEq, Repr

/-- A tool call from the planner: `{id, name, input}`. -/
structure ToolCall where
  id : String
  toolName : String
  input : ToolInput
deriving DecidableEq, Repr

/-- One invocation of the session's `execute`/`executeStreaming`:
the command text, the `options.sudo` flag, whether it used the streaming
path, and (instrumentation) the index of the confirm prompt that
authorized it. -/
structure Dispatch where
  command : String
  sudoFlag : Bool
  streaming : Bool
  confirmPrompt : Nat
deriving DecidableEq, Repr

/-- Operator-visible output of the orchestrator (the `cli.print*` calls
of `handleToolCalls` and the execute wrappers). -/
inductive UiEvent where
  | showCommand (command explanation : String)
  | streamingNotice
  | streamingHeader (command : String)
  | streamingFooter (aborted : Bool)
  | commandOutput (stdout stderr : String) (exitCode : Int)
  | commandFailed
deriving DecidableEq, Repr

/-- Environment of one orchestration run. -/
structure OrchCtx where
  sudoPassword : Option String
  isStreamingCommand : String → Bool
  sess : Nat → Except String ExecResult
  answer : Nat → Bool

/-- Observable state threaded through the orchestrator. -/
structure OrchState where
  prompts : Nat
  dispatches : Nat
  trace : List Dispatch
  cmdLogCalls : List (String × String × Int)
  ui : List UiEvent
deriving DecidableEq, Repr

/-- The early-return result when a command requires sudo but no password
is held (main module `executeCommand` / `executeStreamingCommand`). -/
def sudoNotConfiguredResult : ExecResult :=
  ⟨"", "Sudo password not configured. Please reconnect with /connect and provide a sudo password when prompted.", 1, false⟩

/-- `executeCommand(command, requiresSudo)` of the main module: refuse
with `sudoNotConfiguredResult` when sudo is required but no password is
held; otherwise dispatch to the session, log the output on success, and
convert a rejection into `{stdout:'', stderr: err.message, exitCode: 1}`.
`confirmedAt` is verification instrumentation only (recorded in the
dispatch trace); it does not affect the result. -/
def executeCommand (ctx : OrchCtx) (confirmedAt : Nat) (st : OrchState)
    (command : String) (requiresSudo : Bool) : ExecResult × OrchState :=
  if requiresSudo && ctx.sudoPassword.isNone then
    (sudoNotConfiguredResult, st)
  else
    let st1 := { st with
      dispatches := st.dispatches + 1
      trace := st.trace ++ [⟨command, requiresSudo, false, confirmedAt⟩] }
    match ctx.sess st.dispatches with
    | Except.ok r =>
      let output := r.stdout ++ (if r.stderr ≠ "" then "\n" ++ r.stderr else "")
      (r, { st1 with cmdLogCalls := st1.cmdLogCalls ++ [(command, output, r.exitCode)] })
    | Except.error e => (⟨"", e, 1, false⟩, st1)

/-- `executeStreamingCommand(command, requiresSudo)` of the main module:
same sudo gate and error conversion as `executeCommand`, but through the
streaming path, printing the streaming header before dispatch and the
footer when the completion resolves. -/
def executeStreamingCommand (ctx : OrchCtx) (confirmedAt : Nat) (st : OrchState)
    (command : String) (requiresSudo : Bool) : ExecResult × OrchState :=
  if requiresSudo && ctx.sudoPassword.isNone then
    (sudoNotConfiguredResult, st)
  else
    let st0 := { st with ui := st.ui ++ [UiEvent.streamingHeader command] }
    let st1 := { st0 with
      dispatches := st0.dispatches + 1
      trace := st0.trace ++ [⟨command, requiresSudo, true, confirmedAt⟩] }
    match ctx.sess st0.dispatches with
    | Except.ok r =>
      let output := r.stdout ++ (if r.stderr ≠ "" then "\n" ++ r.stderr else "")
      (r, { st1 with
        ui := st1.ui ++ [UiEvent.streamingFooter r.aborted]
        cmdLogCalls := st1.cmdLogCalls ++ [(command, output, r.exitCode)] })
    | Except.error e => (⟨"", e, 1, false⟩, st1)

/-- One element of the serialized result list of a command sequence:
either `{command, skipped: true, reason}` or
`{command, exitCode, stdout, stderr, success, aborted}`. -/
inductive SeqItem where
  | skipped (command : String) (reason : String)
  | executed (command : String) (r : ExecResult)
deriving DecidableEq, Repr

/-- The `content` string of a tool result, by provenance:
`declined` is the literal `'User declined to execute this command.'`,
`abortAfterFailure` is `'User chose to abort after command failure.'`,
`execJson r` is `JSON.stringify({exitCode, stdout, stderr, success,
aborted})`, and `seqJson items` is `JSON.stringify(sequenceResults)`. -/
inductive ToolResultContent where
  | declined
  | abortAfterFailure
  | execJson (r : ExecResult)
  | seqJson (items : List SeqItem)
deriving DecidableEq, Repr

/-- A `{type: 'tool_result', tool_use_id, content}` object. -/
structure ToolResult where
  tool_use_id : String
  content : ToolResultContent
deriving DecidableEq, Repr

/-- The `cli.printCommandExecution` call plus the optional streaming
notice shown before the confirm prompt. -/
def presentUi (st : OrchState) (command explanation : String)
    (shouldStream : Bool) : OrchState :=
  { st with ui := st.ui ++ [UiEvent.showCommand command explanation]
      ++ (if shouldStream then [UiEvent.streamingNotice] else []) }

/-- Consume one operator prompt (instrumentation counter). -/
def bumpPrompt (st : OrchState) : OrchState :=
  { st with prompts := st.prompts + 1 }

/-- The `Command failed!` error print. -/
def noteFailedUi (st : OrchState) : OrchState :=
  { st with ui := st.ui ++ [UiEvent.commandFailed] }

/-- The shared post-confirmation dispatch of both branches of
`handleToolCalls`: streaming requests go through
`executeStreamingCommand`, the rest through `executeCommand` followed by
`cli.printCommandOutput`. -/
def dispatchRequest (ctx : OrchCtx) (confirmedAt : Nat) (st : OrchState)
    (command : String) (requiresSudo shouldStream : Bool) : ExecResult × OrchState :=
  if shouldStream then
    executeStreamingCommand ctx confirmedAt st command requiresSudo
  else
    let er0 := executeCommand ctx confirmedAt st command requiresSudo
    (er0.1, { er0.2 with
      ui := er0.2.ui ++ [UiEvent.commandOutput er0.1.stdout er0.1.stderr er0.1.exitCode] })

/-- The inner `for (const cmd of commands)` loop of the
`execute_command_sequence` branch of `handleToolCalls`: present, confirm,
execute (streaming or not), and on a non-aborted failure ask whether to
continue, breaking on a negative answer. -/
def runSequence (ctx : OrchCtx) : OrchState → List CommandRequest → List SeqItem × OrchState
  | st, [] => ([], st)
  | st, cmd :: rest =>
    let shouldStream := cmd.is_streaming || ctx.isStreamingCommand cmd.command
    let st1 := bumpPrompt (presentUi st cmd.command cmd.explanation shouldStream)
    if ctx.answer st.prompts = false then
      let next := runSequence ctx st1 rest
      (SeqItem.skipped cmd.command "User declined" :: next.1, next.2)
    else
      let er := dispatchRequest ctx st.prompts st1 cmd.command cmd.requires_sudo shouldStream
      let item := SeqItem.executed cmd.command er.1
      if er.1.exitCode ≠ 0 ∧ er.1.aborted = false then
        let st4 := bumpPrompt (noteFailedUi er.2)
        if ctx.answer er.2.prompts then
          let next := runSequence ctx st4 rest
          (item :: next.1, next.2)
        else ([item], st4)
      else
        let next := runSequence ctx er.2 rest
        (item :: next.1, next.2)

/-- `handleToolCalls(toolCalls)` of the main module: iterate over the
tool calls; `execute_command` runs the confirm/execute/recover cycle for
one request (a decline pushes the declined marker and moves on; a
non-aborted failure asks whether to continue and on refusal pushes the
abort marker and stops); `execute_command_sequence` runs `runSequence`
and pushes its serialized item list.  The `if`/`else if` chain has no
final `else`: any other tool name falls through, contributing nothing.
A known name with a payload of the wrong shape is outside the planner's
schema and is modelled as the same fall-through. -/
def handleToolCalls (ctx : OrchCtx) : OrchState → List ToolCall → List ToolResult × OrchState
  | st, [] => ([], st)
  | st, tc :: rest =>
    if tc.toolName = "execute_command" then
      match tc.input with
      | ToolInput.single req =>
        let shouldStream := req.is_streaming || ctx.isStreamingCommand req.command
        let st1 := bumpPrompt (presentUi st req.command req.explanation shouldStream)
        if ctx.answer st.prompts = false then
          let next := handleToolCalls ctx st1 rest
          (⟨tc.id, ToolResultContent.declined⟩ :: next.1, next.2)
        else
          let er := dispatchRequest ctx st.prompts st1 req.command req.requires_sudo shouldStream
          let res : ToolResult := ⟨tc.id, ToolResultContent.execJson er.1⟩
          if er.1.exitCode ≠ 0 ∧ er.1.aborted = false then
            let st4 := bumpPrompt (noteFailedUi er.2)
            if ctx.answer er.2.prompts then
              let next := handleToolCalls ctx st4 rest
              (res :: next.1, next.2)
            else
              ([res, ⟨tc.id, ToolResultContent.abortAfterFailure⟩], st4)
          else
            let next := handleToolCalls ctx er.2 rest
            (res :: next.1, next.2)
      | _ => handleToolCalls ctx st rest
    else if tc.toolName = "execute_command_sequence" then
      match tc.input with
      | ToolInput.sequence cmds =>
        let seqRes := runSequence ctx st cmds
        let next := handleToolCalls ctx seqRes.2 rest
        (⟨tc.id, ToolResultContent.seqJson seqRes.1⟩ :: next.1, next.2)
      | _ => handleToolCalls ctx st rest
    else
      handleToolCalls ctx st rest

/-- C9: when a command requires elevation and no credential is held,
both execution paths return `sudoNotConfiguredResult` — exit code 1 and
the stderr text telling the operator to reconnect and supply a password —
and leave the state untouched: in particular the dispatch trace does not
grow, so the command is never sent to the session at all (and a fortiori
never executed without elevation). -/
theorem elevation_without_credential (ctx : OrchCtx) (confirmedAt : Nat)
    (st : OrchState) (command : String) (h : ctx.sudoPassword = none) :
    executeCommand ctx confirmedAt st command true = (sudoNotConfiguredResult, st) ∧
    executeStreamingCommand ctx confirmedAt st command true = (sudoNotConfiguredResult, st) ∧
    sudoNotConfiguredResult.exitCode = 1 ∧
    sudoNotConfiguredResult.stderr =
      "Sudo password not configured. Please reconnect with /connect and provide a sudo password when prompted." := by
  refine ⟨?_, ?_, rfl, rfl⟩
  · simp [executeCommand, h]
  · simp [executeStreamingCommand, h]

/-- Orchestration fixture: no sudo password held, a session that would
answer every dispatch, an operator who confirms everything. -/
def ctxNoSudo : OrchCtx :=
  ⟨none, fun _ => false, fun _ => Except.ok ⟨"", "", 0, false⟩, fun _ => true⟩

/-- The initial orchestration state. -/
def st0 : OrchState :=
  ⟨0, 0, [], [], []⟩

/-- Witness for C9 at a concrete elevated command. -/
theorem elevation_without_credential_witness :
    executeCommand ctxNoSudo 0 st0 "systemctl restart nginx" true =
      (sudoNotConfiguredResult, st0) ∧
    executeStreamingCommand ctxNoSudo 0 st0 "systemctl restart nginx" true =
      (sudoNotConfiguredResult, st0) ∧
    sudoNotConfiguredResult.exitCode = 1 ∧
    sudoNotConfiguredResult.stderr =
      "Sudo password not configured. Please reconnect with /connect and provide a sudo password when prompted." :=
  elevation_without_credential ctxNoSudo 0 st0 "systemctl restart nginx" rfl

/-- The rejection message of `execute`'s timeout
(`Command timed out after ${timeout}ms`, ssh-manager.js line 95). -/
def timeoutMessage (timeout : Nat) : String :=
  "Command timed out after " ++ toString timeout ++ "ms"

/-- C4: when the session invocation rejects (timeout, exec error,
`NotConnected`) the orchestrator's `executeCommand` and
`executeStreamingCommand` still return a structured result — they are
total functions — carrying the error message as stderr and the non-zero
exit code 1; no exception escapes to the caller. -/
theorem errors_become_results (ctx : OrchCtx) (confirmedAt : Nat) (st : OrchState)
    (command : String) (requiresSudo : Bool) (e : String)
    (hsudo : requiresSudo = true → ctx.sudoPassword ≠ none)
    (herr : ctx.sess st.dispatches = Except.error e) :
    (executeCommand ctx confirmedAt st command requiresSudo).1 = ⟨"", e, 1, false⟩ ∧
    (executeStreamingCommand ctx confirmedAt st command requiresSudo).1 = ⟨"", e, 1, false⟩ ∧
    (⟨"", e, 1, false⟩ : ExecResult).exitCode ≠ 0 := by
  have hcond : (requiresSudo && ctx.sudoPassword.isNone) = false := by
    cases hrs : requiresSudo
    · simp
    · cases hopt : ctx.sudoPassword
      · exact absurd hopt (hsudo hrs)
      · simp [hopt]
  refine ⟨?_, ?_, by simp⟩
  · simp [executeCommand, hcond, herr]
  · simp [executeStreamingCommand, hcond, herr]

/-- Orchestration fixture: a session whose every dispatch rejects with
the 60-second timeout message. -/
def ctxTimeout : OrchCtx :=
  ⟨some "pw", fun _ => false, fun _ => Except.error (timeoutMessage 60000), fun _ => true⟩

/-- Witness for C4 at a concrete command whose execution times out. -/
theorem errors_become_results_witness :
    (executeCommand ctxTimeout 0 st0 "sleep 120" false).1 =
      ⟨"", timeoutMessage 60000, 1, false⟩ ∧
    (executeStreamingCommand ctxTimeout 0 st0 "sleep 120" false).1 =
      ⟨"", timeoutMessage 60000, 1, false⟩ ∧
    (⟨"", timeoutMessage 60000, 1, false⟩ : ExecResult).exitCode ≠ 0 :=
  errors_become_results ctxTimeout 0 st0 "sleep 120" false (timeoutMessage 60000)
    (by simp) rfl

@[simp] theorem presentUi_prompts (st : OrchState) (c e : String) (s : Bool) :
    (presentUi st c e s).prompts = st.prompts := rfl

@[simp] theorem presentUi_trace (st : OrchState) (c e : String) (s : Bool) :
    (presentUi st c e s).trace = st.trace := rfl

@[simp] theorem presentUi_dispatches (st : OrchState) (c e : String) (s : Bool) :
    (presentUi st c e s).dispatches = st.dispatches := rfl

@[simp] theorem bumpPrompt_prompts (st : OrchState) :
    (bumpPrompt st).prompts = st.prompts + 1 := rfl

@[simp] theorem bumpPrompt_trace (st : OrchState) :
    (bumpPrompt st).trace = st.trace := rfl

@[simp] theorem bumpPrompt_dispatches (st : OrchState) :
    (bumpPrompt st).dispatches = st.dispatches := rfl

@[simp] theorem noteFailedUi_prompts (st : OrchState) :
    (noteFailedUi st).prompts = st.prompts := rfl

@[simp] theorem noteFailedUi_trace (st : OrchState) :
    (noteFailedUi st).trace = st.trace := rfl

@[simp] theorem noteFailedUi_dispatches (st : OrchState) :
    (noteFailedUi st).dispatches = st.dispatches := rfl

theorem executeCommand_trace (ctx : OrchCtx) (confirmedAt : Nat) (st : OrchState)
    (command : String) (requiresSudo : Bool) :
    ∃ new, (executeCommand ctx confirmedAt st command requiresSudo).2.trace =
        st.trace ++ new ∧
      ∀ d ∈ new, d.confirmPrompt = confirmedAt := by
  cases hb : (requiresSudo && ctx.sudoPassword.isNone)
  · cases hs : ctx.sess st.dispatches with
    | ok r =>
      refine ⟨[⟨command, requiresSudo, false, confirmedAt⟩], ?_, ?_⟩
      · simp [executeCommand, hb, hs]
      · intro d hd; simp at hd; subst hd; rfl
    | error e =>
      refine ⟨[⟨command, requiresSudo, false, confirmedAt⟩], ?_, ?_⟩
      · simp [executeCommand, hb, hs]
      · intro d hd; simp at hd; subst hd; rfl
  · exact ⟨[], by simp [executeCommand, hb], by simp⟩

theorem executeStreamingCommand_trace (ctx : OrchCtx) (confirmedAt : Nat)
    (st : OrchState) (command : String) (requiresSudo : Bool) :
    ∃ new, (executeStreamingCommand ctx confirmedAt st command requiresSudo).2.trace =
        st.trace ++ new ∧
      ∀ d ∈ new, d.confirmPrompt = confirmedAt := by
  cases hb : (requiresSudo && ctx.sudoPassword.isNone)
  · cases hs : ctx.sess st.dispatches with
    | ok r =>
      refine ⟨[⟨command, requiresSudo, true, confirmedAt⟩], ?_, ?_⟩
      · simp [executeStreamingCommand, hb, hs]
      · intro d hd; simp at hd; subst hd; rfl
    | error e =>
      refine ⟨[⟨command, requiresSudo, true, confirmedAt⟩], ?_, ?_⟩
      · simp [executeStreamingCommand, hb, hs]
      · intro d hd; simp at hd; subst hd; rfl
  · exact ⟨[], by simp [executeStreamingCommand, hb], by simp⟩

theorem dispatchRequest_trace (ctx : OrchCtx) (confirmedAt : Nat) (st : OrchState)
    (command : String) (requiresSudo shouldStream : Bool) :
    ∃ new, (dispatchRequest ctx confirmedAt st command requiresSudo shouldStream).2.trace =
        st.trace ++ new ∧
      ∀ d ∈ new, d.confirmPrompt = confirmedAt := by
  cases shouldStream
  · obtain ⟨new, h1, h2⟩ := executeCommand_trace ctx confirmedAt st command requiresSudo
    exact ⟨new, by simpa [dispatchRequest] using h1, h2⟩
  · obtain ⟨new, h1, h2⟩ := executeStreamingCommand_trace ctx confirmedAt st command requiresSudo
    exact ⟨new, by simpa [dispatchRequest] using h1, h2⟩

theorem trace_glue {P : Dispatch → Prop} {t0 t1 t2 : List Dispatch}
    {a b : List Dispatch} (h1 : t1 = t0 ++ a) (h2 : t2 = t1 ++ b)
    (ha : ∀ d ∈ a, P d) (hb : ∀ d ∈ b, P d) :
    ∃ new, t2 = t0 ++ new ∧ ∀ d ∈ new, P d := by
  refine ⟨a ++ b, by rw [h2, h1, List.append_assoc], ?_⟩
  intro d hd
  rcases List.mem_append.mp hd with h | h
  · exact ha d h
  · exact hb d h

theorem runSequence_trace (ctx : OrchCtx) (cmds : List CommandRequest) :
    ∀ st : OrchState, ∃ new,
      (runSequence ctx st cmds).2.trace = st.trace ++ new ∧
      ∀ d ∈ new, ctx.answer d.confirmPrompt = true := by
  induction cmds with
  | nil => intro st; exact ⟨[], by simp [runSequence], by simp⟩
  | cons cmd rest ih =>
    intro st
    by_cases hconf : ctx.answer st.prompts = false
    · obtain ⟨new, hnew, hp⟩ := ih (bumpPrompt (presentUi st cmd.command cmd.explanation
        (cmd.is_streaming || ctx.isStreamingCommand cmd.command)))
      refine ⟨new, ?_, hp⟩
      simp only [runSequence, if_pos hconf]
      simpa using hnew
    · have hconf' : ctx.answer st.prompts = true := by
        revert hconf; cases ctx.answer st.prompts <;> simp
      obtain ⟨new1, h1, hp1⟩ := dispatchRequest_trace ctx st.prompts
        (bumpPrompt (presentUi st cmd.command cmd.explanation
          (cmd.is_streaming || ctx.isStreamingCommand cmd.command)))
        cmd.command cmd.requires_sudo
        (cmd.is_streaming || ctx.isStreamingCommand cmd.command)
      have hp1' : ∀ d ∈ new1, ctx.answer d.confirmPrompt = true := by
        intro d hd; rw [hp1 d hd]; exact hconf'
      simp only [runSequence, if_neg hconf]
      set er := dispatchRequest ctx st.prompts
        (bumpPrompt (presentUi st cmd.command cmd.explanation
          (cmd.is_streaming || ctx.isStreamingCommand cmd.command)))
        cmd.command cmd.requires_sudo
        (cmd.is_streaming || ctx.isStreamingCommand cmd.command) with hER
      have h1' : er.2.trace = st.trace ++ new1 := by simpa using h1
      by_cases hfail : er.1.exitCode ≠ 0 ∧ er.1.aborted = false
      · rw [if_pos hfail]
        by_cases hcont : ctx.answer er.2.prompts = true
        · rw [if_pos hcont]
          obtain ⟨new2, h2, hp2⟩ := ih (bumpPrompt (noteFailedUi er.2))
          have h2' : (runSequence ctx (bumpPrompt (noteFailedUi er.2)) rest).2.trace =
              er.2.trace ++ new2 := by simpa using h2
          exact trace_glue h1' h2' hp1' hp2
        · rw [if_neg hcont]
          refine ⟨new1, ?_, hp1'⟩
          simpa using h1'
      · rw [if_neg hfail]
        obtain ⟨new2, h2, hp2⟩ := ih er.2
        exact trace_glue h1' h2 hp1' hp2

theorem handleToolCalls_trace (ctx : OrchCtx) (tcs : List ToolCall) :
    ∀ st : OrchState, ∃ new,
      (handleToolCalls ctx st tcs).2.trace = st.trace ++ new ∧
      ∀ d ∈ new, ctx.answer d.confirmPrompt = true := by
  induction tcs with
  | nil => intro st; exact ⟨[], by simp [handleToolCalls], by simp⟩
  | cons tc rest ih =>
    intro st
    by_cases hname : tc.toolName = "execute_command"
    · cases hinput : tc.input with
      | single req =>
        by_cases hconf : ctx.answer st.prompts = false
        · obtain ⟨new, hnew, hp⟩ := ih (bumpPrompt (presentUi st req.command req.explanation
            (req.is_streaming || ctx.isStreamingCommand req.command)))
          refine ⟨new, ?_, hp⟩
          simp only [handleToolCalls]
          rw [if_pos hname]
          simp only [hinput]
          rw [if_pos hconf]
          simpa using hnew
        · have hconf' : ctx.answer st.prompts = true := by
            revert hconf; cases ctx.answer st.prompts <;> simp
          obtain ⟨new1, h1, hp1⟩ := dispatchRequest_trace ctx st.prompts
            (bumpPrompt (presentUi st req.command req.explanation
              (req.is_streaming || ctx.isStreamingCommand req.command)))
            req.command req.requires_sudo
            (req.is_streaming || ctx.isStreamingCommand req.command)
          have hp1' : ∀ d ∈ new1, ctx.answer d.confirmPrompt = true := by
            intro d hd; rw [hp1 d hd]; exact hconf'
          simp only [handleToolCalls]
          rw [if_pos hname]
          simp only [hinput]
          rw [if_neg hconf]
          set er := dispatchRequest ctx st.prompts
            (bumpPrompt (presentUi st req.command req.explanation
              (req.is_streaming || ctx.isStreamingCommand req.command)))
            req.command req.requires_sudo
            (req.is_streaming || ctx.isStreamingCommand req.command) with hER
          have h1' : er.2.trace = st.trace ++ new1 := by simpa using h1
          by_cases hfail : er.1.exitCode ≠ 0 ∧ er.1.aborted = false
          · rw [if_pos hfail]
            by_cases hcont : ctx.answer er.2.prompts = true
            · rw [if_pos hcont]
              obtain ⟨new2, h2, hp2⟩ := ih (bumpPrompt (noteFailedUi er.2))
              have h2' : (handleToolCalls ctx (bumpPrompt (noteFailedUi er.2)) rest).2.trace =
                  er.2.trace ++ new2 := by simpa using h2
              exact trace_glue h1' h2' hp1' hp2
            · rw [if_neg hcont]
              refine ⟨new1, ?_, hp1'⟩
              simpa using h1'
          · rw [if_neg hfail]
            obtain ⟨new2, h2, hp2⟩ := ih er.2
            exact trace_glue h1' h2 hp1' hp2
      | sequence cmds =>
        obtain ⟨new, hnew, hp⟩ := ih st
        refine ⟨new, ?_, hp⟩
        simp only [handleToolCalls]
        rw [if_pos hname]
        simp only [hinput]
        exact hnew
      | other =>
        obtain ⟨new, hnew, hp⟩ := ih st
        refine ⟨new, ?_, hp⟩
        simp only [handleToolCalls]
        rw [if_pos hname]
        simp only [hinput]
        exact hnew
    · by_cases hname2 : tc.toolName = "execute_command_sequence"
      · cases hinput : tc.input with
        | sequence cmds =>
          obtain ⟨newA, hA, hpA⟩ := runSequence_trace ctx cmds st
          obtain ⟨newB, hB, hpB⟩ := ih (runSequence ctx st cmds).2
          refine ⟨newA ++ newB, ?_, ?_⟩
          · simp only [handleToolCalls]
            rw [if_neg hname, if_pos hname2]
            simp only [hinput]
            rw [hB, hA, List.append_assoc]
          · intro d hd
            rcases List.mem_append.mp hd with h | h
            · exact hpA d h
            · exact hpB d h
        | single req =>
          obtain ⟨new, hnew, hp⟩ := ih st
          refine ⟨new, ?_, hp⟩
          simp only [handleToolCalls]
          rw [if_neg hname, if_pos hname2]
          simp only [hinput]
          exact hnew
        | other =>
          obtain ⟨new, hnew, hp⟩ := ih st
          refine ⟨new, ?_, hp⟩
          simp only [handleToolCalls]
          rw [if_neg hname, if_pos hname2]
          simp only [hinput]
          exact hnew
      · obtain ⟨new, hnew, hp⟩ := ih st
        refine ⟨new, ?_, hp⟩
        simp only [handleToolCalls]
        rw [if_neg hname, if_neg hname2]
        exact hnew

/-- C1: the orchestrator's confirmation gate.
(1) Whatever the planner sends and however the operator answers, every
dispatch that `handleToolCalls` adds to the transport trace carries the
index of a confirm prompt answered affirmatively — no command reaches the
session without a prior explicit confirmation for that command instance.
(2) When the operator declines a single `execute_command`, the produced
tool result is the `declined` marker and the orchestration continues on
the remaining tool calls from a state with the same trace and dispatch
count — zero transport interaction for the declined command.
(3) The same for an element of a command sequence, whose item is the
`skipped / 'User declined'` marker.
(4) The declined marker is distinguishable from every serialized
execution result, so a decline can never be read as a remote failure. -/
theorem confirm_gate :
    (∀ (ctx : OrchCtx) (st : OrchState) (tcs : List ToolCall),
      ∃ new, (handleToolCalls ctx st tcs).2.trace = st.trace ++ new ∧
        ∀ d ∈ new, ctx.answer d.confirmPrompt = true) ∧
    (∀ (ctx : OrchCtx) (st : OrchState) (tc : ToolCall) (rest : List ToolCall)
        (req : CommandRequest),
      tc.toolName = "execute_command" → tc.input = ToolInput.single req →
      ctx.answer st.prompts = false →
      ∃ stMid : OrchState, stMid.trace = st.trace ∧ stMid.dispatches = st.dispatches ∧
        handleToolCalls ctx st (tc :: rest) =
          (⟨tc.id, ToolResultContent.declined⟩ :: (handleToolCalls ctx stMid rest).1,
            (handleToolCalls ctx stMid rest).2)) ∧
    (∀ (ctx : OrchCtx) (st : OrchState) (cmd : CommandRequest)
        (rest : List CommandRequest),
      ctx.answer st.prompts = false →
      ∃ stMid : OrchState, stMid.trace = st.trace ∧ stMid.dispatches = st.dispatches ∧
        runSequence ctx st (cmd :: rest) =
          (SeqItem.skipped cmd.command "User declined" :: (runSequence ctx stMid rest).1,
            (runSequence ctx stMid rest).2)) ∧
    (∀ r : ExecResult, ToolResultContent.declined ≠ ToolResultContent.execJson r) := by
  refine ⟨fun ctx st tcs => handleToolCalls_trace ctx tcs st, ?_, ?_, ?_⟩
  · intro ctx st tc rest req hname hinput hconf
    refine ⟨bumpPrompt (presentUi st req.command req.explanation
      (req.is_streaming || ctx.isStreamingCommand req.command)), by simp, by simp, ?_⟩
    simp only [handleToolCalls]
    rw [if_pos hname]
    simp only [hinput]
    rw [if_pos hconf]
  · intro ctx st cmd rest hconf
    refine ⟨bumpPrompt (presentUi st cmd.command cmd.explanation
      (cmd.is_streaming || ctx.isStreamingCommand cmd.command)), by simp, by simp, ?_⟩
    simp only [runSequence]
    rw [if_pos hconf]
  · intro r h
    cases h

/-- Orchestration fixture: an operator who declines every confirmation. -/
def ctxDecline : OrchCtx :=
  ⟨some "pw", fun _ => false, fun _ => Except.ok ⟨"", "", 0, false⟩, fun _ => false⟩

/-- The tool call used to instantiate the C1 witness. -/
def tcDecline : ToolCall :=
  ⟨"toolu_01", "execute_command",
    ToolInput.single ⟨"rm /tmp/scratch", "remove scratch file", false, false⟩⟩

/-- Witness for C1: a declined single command yields the declined marker
and continues from a state with an unchanged trace and dispatch count. -/
theorem confirm_gate_witness :
    ∃ stMid : OrchState, stMid.trace = st0.trace ∧ stMid.dispatches = st0.dispatches ∧
      handleToolCalls ctxDecline st0 [tcDecline] =
        (⟨tcDecline.id, ToolResultContent.declined⟩ ::
            (handleToolCalls ctxDecline stMid []).1,
          (handleToolCalls ctxDecline stMid []).2) :=
  confirm_gate.2.1 ctxDecline st0 tcDecline []
    ⟨"rm /tmp/scratch", "remove scratch file", false, false⟩ rfl rfl rfl

/-- Orchestration fixture: password held, trivial heuristic, every
dispatch succeeds, every confirmation granted. -/
def ctxBasic : OrchCtx :=
  ⟨some "pw", fun _ => false, fun _ => Except.ok ⟨"", "", 0, false⟩, fun _ => true⟩

/-- Counterexample to C3 as stated: a tool call whose name is neither
`execute_command` nor `execute_command_sequence` is silently ignored —
`handleToolCalls` produces no result for it, no operator-visible output,
no state change whatsoever — rather than surfacing a hard error. -/
theorem unknown_tool_cex :
    handleToolCalls ctxBasic st0 [⟨"toolu_99", "restart_server", ToolInput.other⟩] =
      ([], st0) := rfl

/-- Amended C3: dispatch recognizes exactly the two known shapes; a tool
call with any other name contributes nothing — no result, no error, no
state change — and processing continues with the remaining tool calls. -/
theorem unknown_tool_skipped (ctx : OrchCtx) (st : OrchState) (tc : ToolCall)
    (rest : List ToolCall) (h1 : tc.toolName ≠ "execute_command")
    (h2 : tc.toolName ≠ "execute_command_sequence") :
    handleToolCalls ctx st (tc :: rest) = handleToolCalls ctx st rest := by
  simp only [handleToolCalls]
  rw [if_neg h1, if_neg h2]

/-- Witness for the amended C3 at a concrete unknown tool name. -/
theorem unknown_tool_skipped_witness :
    handleToolCalls ctxBasic st0 [⟨"toolu_98", "reboot", ToolInput.other⟩] =
      handleToolCalls ctxBasic st0 [] :=
  unknown_tool_skipped ctxBasic st0 ⟨"toolu_98", "reboot", ToolInput.other⟩ []
    (by decide) (by decide)

end AdminKlaus
